import Mathlib

/-!
Verification development for `create_overlay.py` (mietmap-overlay).

The script is a linear numeric pipeline over in-memory tables:

* `load_data`   : parsed JSON rows (lat, lon, value) → points matrix (lon, lat) and values vector,
                  via the numpy slices `data[:, (1, 0)]` and `data[:, 2]`;
* `sanitize_data` : median-absolute-deviation outlier filter on the values vector,
                  applied index-aligned to the points matrix;
* `lonlat_to_world` / `world_to_lonlat` : spherical Web-Mercator forward/inverse projection;
* `export_colormap` : samples a colormap at `entries` linearly spaced positions in [0, 1].

The embedding models the matrices as lists of rows.  The exact pipeline stages
(loader, sanitizer, colormap sampling) are embedded over `ℚ`, which captures the
filter and slicing logic exactly (the concrete numbers exercised by the claims
are exactly representable).  The projector is embedded over `ℝ`, since it is
built from `log`, `tan`, `exp`, `arctan`; the round-trip identities of the
floating-point code are proved in their idealised real-number form.
-/

namespace CreateOverlay

attribute [local semireducible] Rat.sub Rat.add Rat.mul Rat.inv Rat.ofScientific

/-- Failure of `load_data`.  The Python code performs no validation of its own:
a parsed JSON value that does not form a non-empty uniform 2-D numeric array
with at least 3 columns makes the numpy slices `data[:, (1, 0)]` / `data[:, 2]`
raise `IndexError` (ragged rows yield a 1-D object array, an empty list a 1-D
empty array, and fewer than 3 columns an out-of-bounds column index). -/
inductive LoadError where
  | indexError
deriving DecidableEq

/-- Decidable equality for `Except`, so that concrete runs of `load_data` can
be checked by evaluation. -/
instance {ε α : Type} [DecidableEq ε] [DecidableEq α] : DecidableEq (Except ε α) := fun x y =>
  match x, y with
  | .error e, .error f =>
    if h : e = f then isTrue (by rw [h]) else isFalse (by intro c; cases c; exact h rfl)
  | .error _, .ok _ => isFalse (by intro c; cases c)
  | .ok _, .error _ => isFalse (by intro c; cases c)
  | .ok a, .ok b =>
    if h : a = b then isTrue (by rw [h]) else isFalse (by intro c; cases c; exact h rfl)

/-- Absolute value on ℚ, mirroring `np.abs`.  (Spelled out rather than using
Mathlib's lattice `|·|` so that concrete inputs evaluate by `decide`.) -/
def absQ (x : ℚ) : ℚ := if x < 0 then -x else x

/-- Median of a list of rationals, mirroring `np.median`: sort ascending, take
the middle element for odd length and the mean of the two middle elements for
even length.  (`np.median` of an empty array is NaN; the only place the script
can meet that case is `sanitize_data` on an empty input, where every array in
sight is empty and the result does not depend on the returned scalar, so the
empty case is given the junk value 0 here.) -/
def median (xs : List ℚ) : ℚ :=
  if xs.length % 2 = 1 then (List.insertionSort (· ≤ ·) xs).getD (xs.length / 2) 0
  else if xs.length = 0 then 0
  else ((List.insertionSort (· ≤ ·) xs).getD (xs.length / 2 - 1) 0 +
    (List.insertionSort (· ≤ ·) xs).getD (xs.length / 2) 0) / 2

/-- Boolean-mask row selection, mirroring numpy boolean-array indexing
`xs[keep]` for an element-wise mask `keep`. -/
def maskFilter {α : Type} : List α → List Bool → List α
  | [], _ => []
  | _ :: _, [] => []
  | x :: xs, b :: bs => if b then x :: maskFilter xs bs else maskFilter xs bs

/-- `load_data` after JSON parsing: `data = np.array(rows)` followed by
`return data[:, (1, 0)], data[:, 2]`.  The slices succeed exactly when the rows
form a non-empty uniform 2-D array with at least 3 columns; then column 1
(longitude) and column 0 (latitude) make the points matrix and column 2 the
values vector.  Extra columns beyond the third are silently ignored. -/
def load_data (rows : List (List ℚ)) : Except LoadError (List (ℚ × ℚ) × List ℚ) :=
  if rows ≠ [] ∧ (∀ r ∈ rows, r.length = (rows.headD []).length) ∧
      3 ≤ (rows.headD []).length then
    Except.ok (rows.map (fun r => (r.getD 1 0, r.getD 0 0)), rows.map (fun r => r.getD 2 0))
  else
    Except.error LoadError.indexError

/-- `sanitize_data`: remove outliers by median absolute deviation.
Mirrors
  `abs_dist = np.abs(values - np.median(values))`,
  `med_dist = np.median(abs_dist)`,
  `rel_dist = abs_dist / med_dist if med_dist else 0`,
  `keep = rel_dist < max_rel_dist`,
  `return points[keep, :], values[keep]`.
When `med_dist` is zero, `rel_dist` is the scalar `0` and `keep` the scalar
boolean `0 < max_rel_dist`, so every row is kept when the threshold is positive
and none otherwise. -/
def sanitize_data (points : List (ℚ × ℚ)) (values : List ℚ) (max_rel_dist : ℚ := 6) :
    List (ℚ × ℚ) × List ℚ :=
  let abs_dist := values.map (fun v => absQ (v - median values))
  let med_dist := median abs_dist
  if med_dist ≠ 0 then
    let keep := abs_dist.map (fun a => decide (a / med_dist < max_rel_dist))
    (maskFilter points keep, maskFilter values keep)
  else if 0 < max_rel_dist then (points, values) else ([], [])

/-- The median absolute deviation of a values vector (`med_dist` in
`sanitize_data`). -/
def mad (values : List ℚ) : ℚ :=
  median (values.map (fun v => absQ (v - median values)))

/-- The relative distance of a value from the median, in MAD units; 0 in the
degenerate zero-MAD case (step 4 of the sanitizer's algorithm). -/
def relDist (values : List ℚ) (v : ℚ) : ℚ :=
  if mad values ≠ 0 then absQ (v - median values) / mad values else 0

/-- `np.linspace a b n`: `n` evenly spaced samples from `a` to `b` inclusive;
for `n = 1` the single sample is `a`, for `n = 0` the list is empty. -/
def linspace (a b : ℚ) (n : ℕ) : List ℚ :=
  if n ≤ 1 then (List.range n).map (fun _ : ℕ => a)
  else (List.range n).map (fun i : ℕ => a + (b - a) * (i : ℚ) / ((n : ℚ) - 1))

/-- `export_colormap` (serialization stripped): `cm(np.linspace(0, 1, entries))`,
the colormap applied to `entries` linearly spaced positions between 0 and 1. -/
def export_colormap (cm : ℚ → ℚ × ℚ × ℚ × ℚ) (entries : ℕ) : List (ℚ × ℚ × ℚ × ℚ) :=
  (linspace 0 1 entries).map cm

/-- A scalar lies in the unit interval [0, 1]. -/
abbrev inUnitInterval (x : ℚ) : Prop := 0 ≤ x ∧ x ≤ 1

/-- All four RGBA components lie in [0, 1]. -/
abbrev rgbaInRange (c : ℚ × ℚ × ℚ × ℚ) : Prop :=
  inUnitInterval c.1 ∧ inUnitInterval c.2.1 ∧ inUnitInterval c.2.2.1 ∧ inUnitInterval c.2.2.2

/-- One row of `lonlat_to_world`: `w = np.pi * points / 180`, then
`w[:, 0] += np.pi` and `w[:, 1] = np.pi - np.log(np.tan(np.pi / 4 + w[:, 1] / 2))`. -/
noncomputable def lonlat_to_world1 (p : ℝ × ℝ) : ℝ × ℝ :=
  (Real.pi * p.1 / 180 + Real.pi,
   Real.pi - Real.log (Real.tan (Real.pi / 4 + Real.pi * p.2 / 180 / 2)))

/-- `lonlat_to_world` on an N×2 matrix, row-wise. -/
noncomputable def lonlat_to_world (points : List (ℝ × ℝ)) : List (ℝ × ℝ) :=
  points.map lonlat_to_world1

/-- One row of `world_to_lonlat`: `w[:, 0] = points[:, 0] - np.pi`,
`w[:, 1] = 2 * (np.arctan(np.exp(-(points[:, 1] - np.pi))) - np.pi / 4)`,
`return w * 180 / np.pi`. -/
noncomputable def world_to_lonlat1 (p : ℝ × ℝ) : ℝ × ℝ :=
  ((p.1 - Real.pi) * 180 / Real.pi,
   2 * (Real.arctan (Real.exp (-(p.2 - Real.pi))) - Real.pi / 4) * 180 / Real.pi)

/-- `world_to_lonlat` on an N×2 matrix, row-wise. -/
noncomputable def world_to_lonlat (points : List (ℝ × ℝ)) : List (ℝ × ℝ) :=
  points.map world_to_lonlat1

/-! Helper lemmas about the embedded operations. -/

theorem getD_mem_of_lt {α : Type} (l : List α) (i : ℕ) (d : α) (h : i < l.length) :
    l.getD i d ∈ l := by
  rw [List.getD_eq_getElem l d h]
  exact List.getElem_mem h

theorem median_const {c : ℚ} {xs : List ℚ} (hne : xs ≠ []) (hc : ∀ x ∈ xs, x = c) :
    median xs = c := by
  have hperm : List.Perm (List.insertionSort (· ≤ ·) xs) xs := List.perm_insertionSort _ xs
  have hlen : (List.insertionSort (· ≤ ·) xs).length = xs.length := hperm.length_eq
  have hmem : ∀ x ∈ List.insertionSort (· ≤ ·) xs, x = c := fun x hx =>
    hc x (hperm.mem_iff.mp hx)
  have hpos : 0 < xs.length := List.length_pos.mpr hne
  unfold median
  by_cases hodd : xs.length % 2 = 1
  · rw [if_pos hodd]
    exact hmem _ (getD_mem_of_lt _ _ _ (by omega))
  · rw [if_neg hodd, if_neg (by omega)]
    rw [hmem _ (getD_mem_of_lt _ _ _ (by omega)), hmem _ (getD_mem_of_lt _ _ _ (by omega))]
    ring

theorem maskFilter_nil_mask {α : Type} : ∀ xs : List α, maskFilter xs [] = []
  | [] => rfl
  | _ :: _ => rfl

theorem maskFilter_sublist {α : Type} : ∀ (xs : List α) (ks : List Bool),
    List.Sublist (maskFilter xs ks) xs
  | [], _ => List.Sublist.refl _
  | _ :: _, [] => List.nil_sublist _
  | x :: xs, b :: bs => by
    cases b with
    | false => exact (maskFilter_sublist xs bs).cons x
    | true => exact (maskFilter_sublist xs bs).cons₂ x

theorem maskFilter_map_pred {α : Type} (f : α → Bool) : ∀ xs : List α,
    maskFilter xs (xs.map f) = xs.filter f
  | [] => rfl
  | x :: xs => by
    simp only [List.map_cons, maskFilter, List.filter_cons]
    cases h : f x <;> simp [maskFilter_map_pred f xs, h]

theorem maskFilter_zip {α β : Type} : ∀ (ps : List α) (vs : List β) (ks : List Bool),
    ps.length = vs.length →
    (maskFilter ps ks).zip (maskFilter vs ks) = maskFilter (ps.zip vs) ks
  | [], _, _, _ => by simp [maskFilter]
  | _ :: _, _, [], _ => by simp [maskFilter, maskFilter_nil_mask]
  | p :: ps, [], k :: ks, h => absurd h (by simp)
  | p :: ps, v :: vs, k :: ks, h => by
    have ih := maskFilter_zip ps vs ks (by simpa using h)
    cases k <;> simp_all [maskFilter, List.zip]

theorem maskFilter_length_eq {α β : Type} : ∀ (ps : List α) (vs : List β) (ks : List Bool),
    ps.length = vs.length →
    (maskFilter ps ks).length = (maskFilter vs ks).length
  | [], [], _, _ => rfl
  | [], _ :: _, _, h => absurd h (by simp)
  | _ :: _, [], _, h => absurd h (by simp)
  | _ :: _, _ :: _, [], _ => rfl
  | p :: ps, v :: vs, k :: ks, h => by
    cases k <;> simp [maskFilter, maskFilter_length_eq ps vs ks (by simpa using h)]

theorem maskFilter_pair {α β : Type} : ∀ (ps : List α) (vs : List β) (q : β → Bool),
    ps.length = vs.length →
    maskFilter ps (vs.map q) = ((ps.zip vs).filter (fun pv => q pv.2)).map Prod.fst
  | [], _, _, _ => by simp [maskFilter]
  | _ :: _, [], _, h => absurd h (by simp)
  | p :: ps, v :: vs, q, h => by
    simp only [List.map_cons, List.zip_cons_cons, List.filter_cons]
    cases hq : q v <;>
      simp [maskFilter, hq, maskFilter_pair ps vs q (by simpa using h)]

/-! Claim theorems. -/

/-- C2: for every non-empty input whose values are all identical, the median
absolute deviation is zero and `sanitize_data` (at its default threshold 6)
returns the input points matrix and values vector unchanged. -/
theorem sanitize_data_const_values (points : List (ℚ × ℚ)) (values : List ℚ) (c : ℚ)
    (hne : values ≠ []) (hc : ∀ v ∈ values, v = c) :
    mad values = 0 ∧ sanitize_data points values 6 = (points, values) := by
  have habs : ∀ a ∈ values.map (fun v => absQ (v - median values)), a = 0 := by
    intro a ha
    rcases List.mem_map.mp ha with ⟨v, hv, rfl⟩
    rw [hc v hv, median_const hne hc]
    simp [absQ]
  have hmapne : values.map (fun v => absQ (v - median values)) ≠ [] := by
    simpa using hne
  have hmad : mad values = 0 := median_const hmapne habs
  have hmd : median (values.map fun v => absQ (v - median values)) = 0 := hmad
  refine ⟨hmad, ?_⟩
  simp only [sanitize_data]
  rw [if_neg (not_not.mpr hmd), if_pos (by norm_num : (0:ℚ) < 6)]

/-- C2 witness: a singleton table with value 5 is returned unchanged. -/
theorem sanitize_data_const_values_witness :
    ([(5:ℚ)] ≠ []) ∧ (∀ v ∈ [(5:ℚ)], v = 5) ∧
    (mad [(5:ℚ)] = 0 ∧ sanitize_data [((1:ℚ), (2:ℚ))] [(5:ℚ)] 6 = ([((1:ℚ), (2:ℚ))], [(5:ℚ)])) := by
  have h1 : [(5:ℚ)] ≠ [] := by decide
  have h2 : ∀ v ∈ [(5:ℚ)], v = 5 := by decide
  exact ⟨h1, h2, sanitize_data_const_values _ _ 5 h1 h2⟩

/-- C3: on the concrete rows [[49, 8.40, 10], [49, 8.41, 12], [49, 8.42, 1000]]
(lat, lon, value), loading reorders the columns to (lon, lat) and sanitizing
with threshold 6 discards exactly the third row (relative distance 494 ≥ 6),
keeping points [[8.40, 49], [8.41, 49]] and values [10, 12]. -/
theorem load_then_sanitize_example :
    load_data [[49, 8.40, 10], [49, 8.41, 12], [49, 8.42, 1000]] =
      Except.ok ([(8.40, 49), (8.41, 49), (8.42, 49)], [10, 12, 1000]) ∧
    sanitize_data [(8.40, 49), (8.41, 49), (8.42, 49)] [10, 12, 1000] 6 =
      ([(8.40, 49), (8.41, 49)], [10, 12]) := by decide

/-- C9: the empty input table yields the empty output table, without error. -/
theorem sanitize_data_empty :
    sanitize_data ([] : List (ℚ × ℚ)) ([] : List ℚ) 6 = ([], []) := by decide

/-- C5: whenever the median absolute deviation `d = mad values` is nonzero,
`sanitize_data` keeps exactly the rows whose relative distance
`|value - median| / d` is strictly below the threshold, in particular a row at
exactly the threshold is discarded and one just below it is kept; the kept
values are the filtered values and the kept points are the first components of
the correspondingly filtered (point, value) pairs. -/
theorem sanitize_data_keep_iff (points : List (ℚ × ℚ)) (values : List ℚ) (t : ℚ)
    (hlen : points.length = values.length) (hd : mad values ≠ 0) :
    (sanitize_data points values t).2 =
      values.filter (fun v => decide (relDist values v < t)) ∧
    (sanitize_data points values t).1 =
      ((points.zip values).filter (fun pv => decide (relDist values pv.2 < t))).map
        Prod.fst := by
  have hd' : median (values.map fun v => absQ (v - median values)) ≠ 0 := hd
  have hfun : (fun v => decide (relDist values v < t)) =
      (fun v => decide (absQ (v - median values) /
        median (values.map fun w => absQ (w - median values)) < t)) := by
    funext v
    congr 1
    rw [relDist, if_pos hd]
    rfl
  have hfun2 : (fun pv : (ℚ × ℚ) × ℚ => decide (relDist values pv.2 < t)) =
      (fun pv : (ℚ × ℚ) × ℚ => decide (absQ (pv.2 - median values) /
        median (values.map fun w => absQ (w - median values)) < t)) := by
    funext pv
    congr 1
    rw [relDist, if_pos hd]
    rfl
  simp only [sanitize_data]
  rw [if_pos hd', List.map_map]
  constructor
  · rw [maskFilter_map_pred, hfun]
    rfl
  · rw [maskFilter_pair _ _ _ hlen, hfun2]
    rfl

/-- C5 witness: for values [0, 1, 2, 3, 8] the median is 2 and the MAD is 1;
the last row has relative distance exactly 6 and is discarded, the others
(relative distances 2, 1, 0, 1) are kept. -/
theorem sanitize_data_keep_iff_witness :
    ([((0:ℚ),0), (1,0), (2,0), (3,0), (8,0)].length = [(0:ℚ), 1, 2, 3, 8].length) ∧
    (mad [(0:ℚ), 1, 2, 3, 8] ≠ 0) ∧
    ((sanitize_data [((0:ℚ),0), (1,0), (2,0), (3,0), (8,0)] [(0:ℚ), 1, 2, 3, 8] 6).2 =
      [(0:ℚ), 1, 2, 3, 8].filter (fun v => decide (relDist [(0:ℚ), 1, 2, 3, 8] v < 6)) ∧
    (sanitize_data [((0:ℚ),0), (1,0), (2,0), (3,0), (8,0)] [(0:ℚ), 1, 2, 3, 8] 6).1 =
      (([((0:ℚ),0), (1,0), (2,0), (3,0), (8,0)].zip [(0:ℚ), 1, 2, 3, 8]).filter
        (fun pv => decide (relDist [(0:ℚ), 1, 2, 3, 8] pv.2 < 6))).map Prod.fst) := by
  have h1 : [((0:ℚ),0), (1,0), (2,0), (3,0), (8,0)].length = [(0:ℚ), 1, 2, 3, 8].length := by
    decide
  have h2 : mad [(0:ℚ), 1, 2, 3, 8] ≠ 0 := by decide
  exact ⟨h1, h2, sanitize_data_keep_iff _ _ 6 h1 h2⟩

/-- C6: for index-aligned inputs the sanitizer's outputs have equal length,
the output (point, value) pairs form a sublist of the input pairs (so every
output row is an input row, in the original relative order), and every
surviving value passes the MAD filter. -/
theorem sanitize_data_invariants (points : List (ℚ × ℚ)) (values : List ℚ) (t : ℚ)
    (hlen : points.length = values.length) :
    (sanitize_data points values t).1.length = (sanitize_data points values t).2.length ∧
    List.Sublist ((sanitize_data points values t).1.zip (sanitize_data points values t).2)
      (points.zip values) ∧
    (∀ v ∈ (sanitize_data points values t).2, relDist values v < t) := by
  simp only [sanitize_data]
  by_cases hd : median (values.map fun v => absQ (v - median values)) ≠ 0
  · rw [if_pos hd]
    refine ⟨maskFilter_length_eq _ _ _ hlen, ?_, ?_⟩
    · rw [maskFilter_zip _ _ _ hlen]
      exact maskFilter_sublist _ _
    · intro v hv
      rw [List.map_map, maskFilter_map_pred] at hv
      have hpass := List.of_mem_filter hv
      rw [relDist, if_pos (show mad values ≠ 0 from hd)]
      exact of_decide_eq_true hpass
  · rw [if_neg hd]
    by_cases ht : (0:ℚ) < t
    · rw [if_pos ht]
      refine ⟨hlen, List.Sublist.refl _, ?_⟩
      intro v _
      rw [relDist, if_neg (show ¬mad values ≠ 0 from hd)]
      exact ht
    · rw [if_neg ht]
      exact ⟨rfl, List.nil_sublist _, by intro v hv; cases hv⟩

/-- C6 witness: a concrete aligned table with one outlier. -/
theorem sanitize_data_invariants_witness :
    ([((0:ℚ),0), (1,0), (2,0), (3,0), (8,0)].length = [(0:ℚ), 1, 2, 3, 8].length) ∧
    ((sanitize_data [((0:ℚ),0), (1,0), (2,0), (3,0), (8,0)] [(0:ℚ), 1, 2, 3, 8] 6).1.length =
      (sanitize_data [((0:ℚ),0), (1,0), (2,0), (3,0), (8,0)] [(0:ℚ), 1, 2, 3, 8] 6).2.length ∧
    List.Sublist
      ((sanitize_data [((0:ℚ),0), (1,0), (2,0), (3,0), (8,0)] [(0:ℚ), 1, 2, 3, 8] 6).1.zip
        (sanitize_data [((0:ℚ),0), (1,0), (2,0), (3,0), (8,0)] [(0:ℚ), 1, 2, 3, 8] 6).2)
      ([((0:ℚ),0), (1,0), (2,0), (3,0), (8,0)].zip [(0:ℚ), 1, 2, 3, 8]) ∧
    (∀ v ∈ (sanitize_data [((0:ℚ),0), (1,0), (2,0), (3,0), (8,0)] [(0:ℚ), 1, 2, 3, 8] 6).2,
      relDist [(0:ℚ), 1, 2, 3, 8] v < 6)) := by
  have h1 : [((0:ℚ),0), (1,0), (2,0), (3,0), (8,0)].length = [(0:ℚ), 1, 2, 3, 8].length := by
    decide
  exact ⟨h1, sanitize_data_invariants _ _ 6 h1⟩

/-- C4 counterexample: a uniform input whose single row has FOUR numeric
fields is accepted by `load_data` (the extra column is ignored), while the
claim demands a `FormatError` whenever a row does not have exactly 3 numeric
fields. -/
theorem load_data_four_fields_ok :
    load_data [[1, 2, 3, 4]] = Except.ok ([(2, 1)], [3]) := by decide

/-- C4 (amended): `load_data` succeeds precisely on a non-empty table of rows
of one uniform length of at least 3 numeric fields; it fails (with the single
`IndexError` kind) on the empty table, on ragged rows, and on uniform rows of
fewer than 3 fields — extra fields beyond the third are accepted and ignored,
and no dedicated error type distinguishes the failure modes. -/
theorem load_data_ok_iff (rows : List (List ℚ)) :
    (∃ out, load_data rows = Except.ok out) ↔
    rows ≠ [] ∧ ∃ k, 3 ≤ k ∧ ∀ r ∈ rows, r.length = k := by
  unfold load_data
  split
  case isTrue h =>
    constructor
    · rintro -
      exact ⟨h.1, (rows.headD []).length, h.2.2, h.2.1⟩
    · intro _
      exact ⟨_, rfl⟩
  case isFalse h =>
    constructor
    · rintro ⟨out, hout⟩
      exact Except.noConfusion hout
    · rintro ⟨hne, k, hk3, hall⟩
      exfalso
      apply h
      have hhead : (rows.headD []).length = k := by
        cases rows with
        | nil => exact absurd rfl hne
        | cons r rs => exact hall r (by simp)
      exact ⟨hne, fun r hr => by rw [hall r hr, hhead], by rw [hhead]; exact hk3⟩

/-- C8 counterexample: on the empty input (0 rows, each vacuously of 3 numeric
fields) `load_data` fails — `np.array([])` is one-dimensional, so the column
slice raises `IndexError` — instead of returning the empty matrices the claim
requires. -/
theorem load_data_empty_err :
    load_data ([] : List (List ℚ)) = Except.error LoadError.indexError := by decide

/-- C8 (amended): for every NON-empty input of rows of exactly 3 numeric
fields in (latitude, longitude, value) order, `load_data` returns the points
matrix with column 0 the longitude field and column 1 the latitude field, and
the values vector equal to the third field, preserving row order. -/
theorem load_data_columns (rows : List (ℚ × ℚ × ℚ)) (hne : rows ≠ []) :
    load_data (rows.map (fun t => [t.1, t.2.1, t.2.2])) =
      Except.ok (rows.map (fun t => (t.2.1, t.1)), rows.map (fun t => t.2.2)) := by
  have hhead : ((rows.map (fun t => [t.1, t.2.1, t.2.2])).headD []).length = 3 := by
    cases rows with
    | nil => exact absurd rfl hne
    | cons t ts => simp
  have hc : rows.map (fun t => [t.1, t.2.1, t.2.2]) ≠ [] ∧
      (∀ r ∈ rows.map (fun t => [t.1, t.2.1, t.2.2]),
        r.length = ((rows.map (fun t => [t.1, t.2.1, t.2.2])).headD []).length) ∧
      3 ≤ ((rows.map (fun t => [t.1, t.2.1, t.2.2])).headD []).length := by
    refine ⟨by simpa using hne, ?_, by rw [hhead]⟩
    intro r hr
    rcases List.mem_map.mp hr with ⟨t, _, rfl⟩
    rw [hhead]
    rfl
  unfold load_data
  rw [if_pos hc]
  simp [List.map_map, Function.comp]

/-- C8 witness: a single (lat, lon, value) row is loaded with the columns
swapped to (lon, lat). -/
theorem load_data_columns_witness :
    ([((49:ℚ), (8.40:ℚ), (10:ℚ))] ≠ []) ∧
    load_data ([((49:ℚ), (8.40:ℚ), (10:ℚ))].map (fun t => [t.1, t.2.1, t.2.2])) =
      Except.ok ([((49:ℚ), (8.40:ℚ), (10:ℚ))].map (fun t => (t.2.1, t.1)),
        [((49:ℚ), (8.40:ℚ), (10:ℚ))].map (fun t => t.2.2)) := by
  have h1 : [((49:ℚ), (8.40:ℚ), (10:ℚ))] ≠ [] := by decide
  exact ⟨h1, load_data_columns _ h1⟩

theorem linspace_length (a b : ℚ) (n : ℕ) : (linspace a b n).length = n := by
  unfold linspace
  split <;> simp

theorem linspace_head (a b : ℚ) (n : ℕ) (hn : 2 ≤ n) : (linspace a b n).head? = some a := by
  unfold linspace
  rw [if_neg (by omega)]
  obtain ⟨m, rfl⟩ : ∃ m, n = m + 1 := ⟨n - 1, by omega⟩
  rw [List.range_succ_eq_map]
  simp

theorem linspace_getLast (a b : ℚ) (n : ℕ) (hn : 2 ≤ n) :
    (linspace a b n).getLast? = some b := by
  unfold linspace
  rw [if_neg (by omega)]
  obtain ⟨m, rfl⟩ : ∃ m, n = m + 2 := ⟨n - 2, by omega⟩
  rw [List.range_succ, List.map_append, List.map_cons, List.map_nil, List.getLast?_concat]
  have h1 : ((m + 2 : ℕ) : ℚ) - 1 = (m : ℚ) + 1 := by push_cast; ring
  have h2 : ((m : ℚ) + 1) ≠ 0 := by positivity
  rw [h1]
  congr 1
  field_simp

theorem linspace_unit_mem (n : ℕ) (x : ℚ) (hx : x ∈ linspace 0 1 n) : 0 ≤ x ∧ x ≤ 1 := by
  unfold linspace at hx
  split at hx
  · rcases List.mem_map.mp hx with ⟨i, _, rfl⟩
    norm_num
  · rcases List.mem_map.mp hx with ⟨i, hi, rfl⟩
    rw [List.mem_range] at hi
    rename_i hn
    have hn2 : 2 ≤ n := by omega
    have hpos : (0:ℚ) < (n:ℚ) - 1 := by
      have : (2:ℚ) ≤ (n:ℚ) := by exact_mod_cast hn2
      linarith
    have hi' : (i:ℚ) ≤ (n:ℚ) - 1 := by
      have : (i:ℚ) + 1 ≤ (n:ℚ) := by exact_mod_cast hi
      linarith
    constructor
    · positivity
    · rw [show (0:ℚ) + (1 - 0) * i / ((n:ℚ) - 1) = i / ((n:ℚ) - 1) by ring,
        div_le_one hpos]
      exact hi'

theorem linspace_unit_ascending (n : ℕ) : List.Chain' (· < ·) (linspace 0 1 n) := by
  unfold linspace
  split
  · rename_i hn
    rcases (by omega : n = 0 ∨ n = 1) with rfl | rfl <;> simp
  · rename_i hn
    rw [List.chain'_map]
    obtain ⟨m, rfl⟩ : ∃ m, n = m + 1 := ⟨n - 1, by omega⟩
    rw [List.chain'_range_succ]
    intro i hi
    have hpos : (0:ℚ) < ((m + 1 : ℕ) : ℚ) - 1 := by
      have : (2:ℚ) ≤ ((m + 1 : ℕ) : ℚ) := by exact_mod_cast (by omega : 2 ≤ m + 1)
      linarith
    rw [show (0:ℚ) + (1 - 0) * i / (((m + 1 : ℕ):ℚ) - 1) = i / (((m + 1 : ℕ):ℚ) - 1) by ring,
      show (0:ℚ) + (1 - 0) * (i + 1 : ℕ) / (((m + 1 : ℕ):ℚ) - 1) =
        ((i + 1 : ℕ):ℚ) / (((m + 1 : ℕ):ℚ) - 1) by ring,
      div_lt_div_iff_of_pos_right hpos]
    exact_mod_cast Nat.lt_succ_self i

/-- C7: for `entries ≥ 1` and a colormap mapping [0, 1] into RGBA tuples with
components in [0, 1], `export_colormap` produces exactly `entries` samples; a
single entry is sampled at position 0, for `entries ≥ 2` the first sample sits
at position 0 and the last at position 1, every exported tuple has components
in [0, 1], and the sample positions are strictly ascending. -/
theorem export_colormap_spec (cm : ℚ → ℚ × ℚ × ℚ × ℚ) (n : ℕ) (hn : 1 ≤ n)
    (hcm : ∀ x : ℚ, 0 ≤ x → x ≤ 1 → rgbaInRange (cm x)) :
    (export_colormap cm n).length = n ∧
    (n = 1 → export_colormap cm n = [cm 0]) ∧
    (2 ≤ n → (export_colormap cm n).head? = some (cm 0) ∧
      (export_colormap cm n).getLast? = some (cm 1)) ∧
    (∀ e ∈ export_colormap cm n, rgbaInRange e) ∧
    List.Chain' (· < ·) (linspace 0 1 n) := by
  refine ⟨?_, ?_, ?_, ?_, linspace_unit_ascending n⟩
  · rw [export_colormap, List.length_map, linspace_length]
  · rintro rfl
    rw [export_colormap]
    norm_num [linspace, List.range_succ]
  · intro h2
    constructor
    · rw [export_colormap, List.head?_map, linspace_head _ _ _ h2]
      rfl
    · rw [export_colormap, List.getLast?_map, linspace_getLast _ _ _ h2]
      rfl
  · intro e he
    rcases List.mem_map.mp he with ⟨x, hx, rfl⟩
    obtain ⟨hx0, hx1⟩ := linspace_unit_mem n x hx
    exact hcm x hx0 hx1

/-- C7 witness: the constant colormap sampled at 2 entries. -/
theorem export_colormap_spec_witness :
    (1 ≤ 2) ∧
    ((export_colormap (fun _ => ((0:ℚ), (0:ℚ), (0:ℚ), (0:ℚ))) 2).length = 2 ∧
    (2 = 1 → export_colormap (fun _ => ((0:ℚ), (0:ℚ), (0:ℚ), (0:ℚ))) 2 =
      [(fun _ => ((0:ℚ), (0:ℚ), (0:ℚ), (0:ℚ))) (0:ℚ)]) ∧
    (2 ≤ 2 → (export_colormap (fun _ => ((0:ℚ), (0:ℚ), (0:ℚ), (0:ℚ))) 2).head? =
        some ((fun _ => ((0:ℚ), (0:ℚ), (0:ℚ), (0:ℚ))) (0:ℚ)) ∧
      (export_colormap (fun _ => ((0:ℚ), (0:ℚ), (0:ℚ), (0:ℚ))) 2).getLast? =
        some ((fun _ => ((0:ℚ), (0:ℚ), (0:ℚ), (0:ℚ))) (1:ℚ))) ∧
    (∀ e ∈ export_colormap (fun _ => ((0:ℚ), (0:ℚ), (0:ℚ), (0:ℚ))) 2, rgbaInRange e) ∧
    List.Chain' (· < ·) (linspace 0 1 2)) := by
  have h1 : 1 ≤ 2 := by decide
  have h2 : ∀ x : ℚ, 0 ≤ x → x ≤ 1 →
      rgbaInRange ((fun _ => ((0:ℚ), (0:ℚ), (0:ℚ), (0:ℚ))) x) := by
    intro x _ _
    refine ⟨⟨?_, ?_⟩, ⟨?_, ?_⟩, ⟨?_, ?_⟩, ⟨?_, ?_⟩⟩ <;> norm_num
  exact ⟨h1, export_colormap_spec _ 2 h1 h2⟩

theorem world_to_lonlat1_lonlat_to_world1 (p : ℝ × ℝ) (h1 : -90 < p.2) (h2 : p.2 < 90) :
    world_to_lonlat1 (lonlat_to_world1 p) = p := by
  have hπ : (0:ℝ) < Real.pi := Real.pi_pos
  have hθ1 : 0 < Real.pi / 4 + Real.pi * p.2 / 180 / 2 := by
    nlinarith [mul_pos hπ (show (0:ℝ) < p.2 + 90 by linarith)]
  have hθ2 : Real.pi / 4 + Real.pi * p.2 / 180 / 2 < Real.pi / 2 := by
    nlinarith [mul_pos hπ (show (0:ℝ) < 90 - p.2 by linarith)]
  have htan : 0 < Real.tan (Real.pi / 4 + Real.pi * p.2 / 180 / 2) :=
    Real.tan_pos_of_pos_of_lt_pi_div_two hθ1 hθ2
  obtain ⟨p1, p2⟩ := p
  simp only [lonlat_to_world1, world_to_lonlat1, Prod.mk.injEq] at *
  constructor
  · field_simp
    ring
  · rw [show -(Real.pi - Real.log (Real.tan (Real.pi / 4 + Real.pi * p2 / 180 / 2)) -
        Real.pi) = Real.log (Real.tan (Real.pi / 4 + Real.pi * p2 / 180 / 2)) by ring,
      Real.exp_log htan, Real.arctan_tan (by linarith) hθ2]
    field_simp
    ring

theorem lonlat_to_world1_world_to_lonlat1 (p : ℝ × ℝ) :
    lonlat_to_world1 (world_to_lonlat1 p) = p := by
  have hπ : (0:ℝ) < Real.pi := Real.pi_pos
  obtain ⟨p1, p2⟩ := p
  simp only [world_to_lonlat1, lonlat_to_world1, Prod.mk.injEq] at *
  constructor
  · field_simp
  · rw [show Real.pi / 4 + Real.pi *
        (2 * (Real.arctan (Real.exp (-(p2 - Real.pi))) - Real.pi / 4) * 180 / Real.pi) /
          180 / 2 = Real.arctan (Real.exp (-(p2 - Real.pi))) by field_simp; ring,
      Real.tan_arctan, Real.log_exp]
    ring

/-- C1: the forward and inverse Web-Mercator transforms are mutual inverses on
whole matrices: for every list of (longitude, latitude) rows with each latitude
strictly between −90 and 90 degrees, `world_to_lonlat` undoes
`lonlat_to_world`, and for every list of world-coordinate rows,
`lonlat_to_world` undoes `world_to_lonlat` (the exact real-number form of the
float round-trip property). -/
theorem roundtrip_world_lonlat (ps qs : List (ℝ × ℝ))
    (h : ∀ p ∈ ps, -90 < p.2 ∧ p.2 < 90) :
    world_to_lonlat (lonlat_to_world ps) = ps ∧
    lonlat_to_world (world_to_lonlat qs) = qs := by
  constructor
  · unfold lonlat_to_world world_to_lonlat
    rw [List.map_map]
    exact (List.map_congr_left (fun p hp =>
      world_to_lonlat1_lonlat_to_world1 p (h p hp).1 (h p hp).2)).trans (List.map_id ps)
  · unfold lonlat_to_world world_to_lonlat
    rw [List.map_map]
    exact (List.map_congr_left (fun p _ =>
      lonlat_to_world1_world_to_lonlat1 p)).trans (List.map_id qs)

/-- C1 witness: the round trip at the single row (0, 0), whose latitude lies
strictly between −90 and 90. -/
theorem roundtrip_world_lonlat_witness :
    (∀ p ∈ [((0:ℝ), (0:ℝ))], -90 < p.2 ∧ p.2 < 90) ∧
    (world_to_lonlat (lonlat_to_world [((0:ℝ), (0:ℝ))]) = [((0:ℝ), (0:ℝ))] ∧
     lonlat_to_world (world_to_lonlat [((3:ℝ), (3:ℝ))]) = [((3:ℝ), (3:ℝ))]) := by
  have h : ∀ p ∈ [((0:ℝ), (0:ℝ))], -90 < p.2 ∧ p.2 < 90 := by
    intro p hp
    rw [List.mem_singleton] at hp
    subst hp
    norm_num
  exact ⟨h, roundtrip_world_lonlat _ _ h⟩

/-- C10: every latitude produced by the inverse projection lies strictly
between −90 and 90 degrees (since arctan of a positive number lies strictly
between 0 and π/2), so the inverse projection's output is always a valid
input to the forward projection. -/
theorem world_to_lonlat_lat_range (qs : List (ℝ × ℝ)) (q : ℝ × ℝ)
    (hq : q ∈ world_to_lonlat qs) : -90 < q.2 ∧ q.2 < 90 := by
  unfold world_to_lonlat at hq
  rcases List.mem_map.mp hq with ⟨p, _, rfl⟩
  have hπ : (0:ℝ) < Real.pi := Real.pi_pos
  have h0 : 0 < Real.arctan (Real.exp (-(p.2 - Real.pi))) := by
    have h := Real.arctan_strictMono (Real.exp_pos (-(p.2 - Real.pi)))
    rwa [Real.arctan_zero] at h
  have h1 : Real.arctan (Real.exp (-(p.2 - Real.pi))) < Real.pi / 2 :=
    Real.arctan_lt_pi_div_two _
  unfold world_to_lonlat1
  constructor
  · show -90 < 2 * (Real.arctan (Real.exp (-(p.2 - Real.pi))) - Real.pi / 4) * 180 / Real.pi
    rw [lt_div_iff₀ hπ]
    nlinarith
  · show 2 * (Real.arctan (Real.exp (-(p.2 - Real.pi))) - Real.pi / 4) * 180 / Real.pi < 90
    rw [div_lt_iff₀ hπ]
    nlinarith

/-- C10 witness: the single world-coordinate row (0, 0). -/
theorem world_to_lonlat_lat_range_witness :
    (world_to_lonlat1 ((0:ℝ), (0:ℝ)) ∈ world_to_lonlat [((0:ℝ), (0:ℝ))]) ∧
    (-90 < (world_to_lonlat1 ((0:ℝ), (0:ℝ))).2 ∧ (world_to_lonlat1 ((0:ℝ), (0:ℝ))).2 < 90) := by
  have hm : world_to_lonlat1 ((0:ℝ), (0:ℝ)) ∈ world_to_lonlat [((0:ℝ), (0:ℝ))] := by
    unfold world_to_lonlat
    simp
  exact ⟨hm, world_to_lonlat_lat_range _ _ hm⟩

end CreateOverlay
